import Mathlib

/-!
Verification development for the kitchen-web digital-signage service:
a shallow embedding of its screen registry, layout catalog, image store
and change feed, together with theorems settling the specified
properties against the embedded code.

Embedding conventions:
* timestamps are `Nat` milliseconds since the Unix epoch;
* the database is explicit state (`List Tv`, `List Layout`), threaded
  through each operation; fallible operations return `Except`;
* filesystem state for the image store is the list of absolute paths of
  existing files;
* the production configuration is modelled (`NODE_ENV=production`,
  image volume root `/data/images`), matching the Docker deployment;
* string algorithms are implemented over `List Char` by structural
  recursion so that every operation evaluates inside the kernel.
-/

namespace KitchenWeb

/-! ## String and path utilities

Models of the JavaScript string operations and Node.js `path` functions
used by `src/server/api/routers/images.ts` and
`src/app/api/images/[filename]/route.ts`, for absolute base directories
(the production image root is absolute). -/

/-- Split a character list at every occurrence of `sep` (like
`String.prototype.split` with a one-character separator). -/
def splitOnChar (sep : Char) : List Char → List (List Char)
  | [] => [[]]
  | c :: rest =>
    let r := splitOnChar sep rest
    if c = sep then [] :: r
    else
      match r with
      | [] => [[c]]
      | g :: gs => (c :: g) :: gs

/-- Whether the first list is an initial segment of the second. -/
def isPrefixList : List Char → List Char → Bool
  | [], _ => true
  | _ :: _, [] => false
  | p :: ps, c :: cs => p = c && isPrefixList ps cs

/-- Whether `pat` occurs as a contiguous subsequence. -/
def containsSeq (pat : List Char) : List Char → Bool
  | [] => isPrefixList pat []
  | c :: cs => isPrefixList pat (c :: cs) || containsSeq pat cs

/-- Substring containment, as JavaScript `String.prototype.includes`. -/
def containsSub (s pat : String) : Bool :=
  containsSeq pat.data s.data

/-- Model of JavaScript `String.prototype.startsWith` (also the behaviour of
Lean's own `String.startsWith`). -/
def startsWithStr (s pre : String) : Bool :=
  isPrefixList pre.data s.data

/-- Interleave `sep` between groups of characters. -/
def joinWith (sep : Char) : List (List Char) → List Char
  | [] => []
  | [g] => g
  | g :: gs => g ++ sep :: joinWith sep gs

/-- One step of pathname normalization over a reversed stack of kept
components: drops empty and `.` components, `..` pops the previous kept
component (or is dropped at the root, as for absolute paths). -/
def normStep (acc : List (List Char)) (c : List Char) : List (List Char) :=
  if c = [] ∨ c = ['.'] then acc
  else if c = ['.', '.'] then acc.tail
  else c :: acc

/-- Model of Node `path.resolve` applied to an absolute path: splits on `/`,
normalizes `.` and `..` components, and rebuilds a `/`-rooted path. -/
def resolveAbs (p : String) : String :=
  ⟨'/' :: joinWith '/' (((splitOnChar '/' p.data).foldl normStep []).reverse)⟩

/-- Model of Node `path.extname`: the extension of the final path component,
empty when the last dot is leading (or the component is `..`). -/
def extname (p : String) : String :=
  let b := (splitOnChar '/' p.data).getLastD []
  if b = ['.', '.'] then ""
  else
    let parts := splitOnChar '.' b
    if 2 ≤ parts.length ∧ joinWith '.' parts.dropLast ≠ [] then
      ⟨'.' :: parts.getLastD []⟩
    else ""

/-- ASCII lower-casing of a string, as `String.prototype.toLowerCase` on the
filenames involved. -/
def lowerStr (s : String) : String :=
  ⟨s.data.map Char.toLower⟩

/-! ## Image store (`src/server/api/routers/images.ts`,
`src/app/api/images/[filename]/route.ts`) -/

/-- Supported image extensions (`IMAGE_EXTENSIONS`; the key set of the
route's `IMAGE_MIME_TYPES` is identical). -/
def IMAGE_EXTENSIONS : List String :=
  [".jpg", ".jpeg", ".png", ".gif", ".webp", ".svg", ".bmp"]

/-- `isImageFile` from the source: extension (lower-cased) in the supported set. -/
def isImageFile (filename : String) : Bool :=
  IMAGE_EXTENSIONS.contains (lowerStr (extname filename))

/-- `getDataDirectory` from the source: image volume root by runtime mode. -/
def getDataDirectory (production : Bool) : String :=
  if production then "/data/images" else "./data/images"

/-- The production image volume root. -/
def imageRoot : String := getDataDirectory true

/-- Error outcomes of the image-store operations. The tRPC handlers wrap
these in a catch-all rethrow, but the distinct inner failures are kept. -/
inductive ImgError where
  | invalidPath
  | notImage
  | notFound
  deriving DecidableEq, Repr

/-- `imagesRouter.delete`: joins the name onto the volume root, resolves it,
requires the resolved path to extend the resolved root as a string
(`startsWith`), requires a supported image extension, requires the file to
exist, then removes it. Filesystem state is the list of existing absolute
file paths; the returned state is the filesystem after the call. -/
def imagesDelete (fsys : List String) (name : String) :
    Except ImgError (List String) :=
  let resolvedPath := resolveAbs (imageRoot ++ "/" ++ name)
  let resolvedDataDir := resolveAbs imageRoot
  if ¬ startsWithStr resolvedPath resolvedDataDir then .error .invalidPath
  else if ¬ isImageFile name then .error .notImage
  else if fsys.contains resolvedPath then .ok (fsys.erase resolvedPath)
  else .error .notFound

/-- Error outcomes of the image-serving route, by HTTP status. -/
inductive ServeError where
  | badRequest
  | notFound
  deriving DecidableEq, Repr

/-- `GET /api/images/[filename]`: rejects filenames containing `..`, `/` or
`\` with 400, rejects non-image extensions with 400, re-checks the resolved
path against the resolved root, 404s missing files, else serves the file.
`filename` is the route parameter after URL decoding; on success the
resolved path that was read is returned. -/
def serveGET (fsys : List String) (filename : String) :
    Except ServeError String :=
  if containsSub filename ".." ∨ containsSub filename "/"
      ∨ containsSub filename "\\" then .error .badRequest
  else if ¬ isImageFile filename then .error .badRequest
  else
    let resolvedPath := resolveAbs (imageRoot ++ "/" ++ filename)
    if ¬ startsWithStr resolvedPath (resolveAbs imageRoot) then
      .error .badRequest
    else if fsys.contains resolvedPath then .ok resolvedPath
    else .error .notFound

/-- Specification-side predicate: an absolute path lies inside the image
volume root (it is the root itself or a proper descendant, component-wise). -/
def insideImageRoot (p : String) : Bool :=
  p = resolveAbs imageRoot ∨ startsWithStr p (resolveAbs imageRoot ++ "/")

/-! ## Screen registry (`screenRouter`, db variant backed by the `tv` table,
and the earlier in-memory variant) -/

/-- A row of the `tv` table (`model Tv` in the Prisma schema; the `createdAt`
column is never read by the routers and is omitted). -/
structure Tv where
  id : String
  position : Int
  imageUrl : Option String
  updatedAt : Nat
  deriving DecidableEq, Repr

/-- Error outcomes of the router procedures. -/
inductive ApiError where
  | validation
  | notFound
  | conflict
  deriving DecidableEq, Repr

/-- First row with the given id (`screens.find` / Prisma `findUnique` on the
primary key). -/
def findTv (rows : List Tv) (id : String) : Option Tv :=
  rows.find? (fun t => t.id == id)

/-- Replace the first row with the given id by `f` of it, leaving everything
else in place; identity when no row matches. -/
def setFirst (rows : List Tv) (id : String) (f : Tv → Tv) : List Tv :=
  match rows with
  | [] => []
  | t :: rest => if t.id == id then f t :: rest else t :: setFirst rest id f

/-- Prisma `db.tv.update({ where: { id }, data })`: fails with NotFound when
the id is absent, otherwise applies `f` and stamps `updatedAt` with the
current time (the schema's `@updatedAt`). -/
def tvUpdate (now : Nat) (rows : List Tv) (id : String) (f : Tv → Tv) :
    Except ApiError (List Tv) :=
  if (findTv rows id).isSome then
    .ok (setFirst rows id (fun t => { f t with updatedAt := now }))
  else .error .notFound

/-- Insert a row into a position-sorted list (stably, before no equal key). -/
def insertPos (t : Tv) : List Tv → List Tv
  | [] => [t]
  | u :: rest =>
    if t.position ≤ u.position then t :: u :: rest else u :: insertPos t rest

/-- Stable sort by ascending `position`: the `orderBy: position asc` of the
db queries, and the JavaScript `sort((a, b) => a.position - b.position)`. -/
def sortPos : List Tv → List Tv
  | [] => []
  | t :: rest => insertPos t (sortPos rest)

/-- Characters allowed in a URL scheme after its first letter. -/
def isSchemeChar (c : Char) : Bool :=
  c.isAlphanum || c = '+' || c = '-' || c = '.'

/-- Split a character list at the first occurrence of `sep`, when present. -/
def splitAtChar (sep : Char) : List Char → Option (List Char × List Char)
  | [] => none
  | c :: cs =>
    if c = sep then some ([], cs)
    else (splitAtChar sep cs).map (fun p => (c :: p.1, p.2))

/-- The WHATWG special schemes requiring an authority. -/
def SPECIAL_SCHEMES : List String := ["http", "https", "ws", "wss", "ftp"]

/-- Modelled platform behaviour: the success predicate of the WHATWG
`new URL(s)` constructor (no base), as called by the `updateImage` zod
refinement. The string must start with a scheme (a letter followed by
alphanumeric, `+`, `-` or `.` characters) and a colon; the http-family
special schemes additionally require `//` and a non-empty host. Exotic
corner cases of the full algorithm are out of scope; the claims only
depend on scheme-less strings being rejected and ordinary absolute URLs
being accepted. -/
def isValidURL (s : String) : Bool :=
  match splitAtChar ':' s.data with
  | none => false
  | some (scheme, rest) =>
    match scheme with
    | [] => false
    | c :: cs =>
      c.isAlpha && cs.all isSchemeChar &&
        (if SPECIAL_SCHEMES.contains (lowerStr ⟨scheme⟩) then
          isPrefixList ['/', '/'] rest &&
            ((rest.drop 2).takeWhile (fun ch => ch ≠ '/') ≠ [])
        else true)

/-- The zod refinement guarding `updateImage`'s `imageUrl` input (db
variant): `null` passes, a falsy string (only the empty string) passes, a
string accepted by `new URL` passes, and otherwise the string must start
with `/`. -/
def imageUrlCheck (v : Option String) : Bool :=
  match v with
  | none => true
  | some val =>
    if val = "" then true
    else if isValidURL val then true
    else startsWithStr val "/"

/-- `screenRouter.updateImage` (db variant): zod-validates the imageUrl,
then updates the row (NotFound when the id is absent). The resulting table
state is returned. -/
def updateImage (now : Nat) (rows : List Tv) (id : String)
    (imageUrl : Option String) : Except ApiError (List Tv) :=
  if ¬ imageUrlCheck imageUrl then .error .validation
  else tvUpdate now rows id (fun t => { t with imageUrl := imageUrl })

/-- The body of `updateOrder`'s transaction: the member `tv.update` calls in
order; the first missing id aborts the whole transaction. -/
def applyOrderTx (now : Nat) :
    List (String × Int) → List Tv → Except ApiError (List Tv)
  | [], rows => .ok rows
  | u :: rest, rows =>
    (tvUpdate now rows u.1 (fun t => { t with position := u.2 })).bind
      (applyOrderTx now rest)

/-- `screenRouter.updateOrder` (db variant): one transaction over all the
updates; the committed state on success, the unchanged state on failure.
The procedure's reply is `sortPos` of the committed state. -/
def updateOrderDb (now : Nat) (rows : List Tv) (updates : List (String × Int)) :
    Except ApiError (List Tv) :=
  applyOrderTx now updates rows

/-- The sequence of database states committed by `updateOrder`: a failed
transaction commits nothing. -/
def updateOrderCommits (now : Nat) (rows : List Tv)
    (updates : List (String × Int)) : List (List Tv) :=
  match updateOrderDb now rows updates with
  | .ok r => [r]
  | .error _ => []

/-- The default image path for a screen id (the template literal
`/image{id}.png` of `resetImage` and friends). -/
def defaultImage (id : String) : String :=
  "/image" ++ id ++ ".png"

/-- `screenRouter.resetImage` (db variant). -/
def resetImage (now : Nat) (rows : List Tv) (id : String) :
    Except ApiError (List Tv) :=
  tvUpdate now rows id (fun t => { t with imageUrl := some (defaultImage id) })

/-- The `updateMany({ data: {} })` opening `resetAllImages`: a separate,
unconditional commit that only re-stamps `updatedAt` on every row. -/
def touchAll (now : Nat) (rows : List Tv) : List Tv :=
  rows.map (fun t => { t with updatedAt := now })

/-- The transaction closing `resetAllImages`: the three fixed `tv.update`
calls writing the default images. -/
def resetAllTx (now : Nat) (rows : List Tv) : Except ApiError (List Tv) :=
  (tvUpdate now rows "1" (fun t => { t with imageUrl := some "/image1.png" })).bind
    fun r1 =>
      (tvUpdate now r1 "2" (fun t => { t with imageUrl := some "/image2.png" })).bind
        fun r2 =>
          tvUpdate now r2 "3" (fun t => { t with imageUrl := some "/image3.png" })

/-- `screenRouter.resetAllImages` (db variant): the post-call table state
together with the error, if any. The opening `updateMany` commit persists
even when the closing transaction fails. -/
def resetAllImages (now : Nat) (rows : List Tv) : List Tv × Option ApiError :=
  let mid := touchAll now rows
  match resetAllTx now mid with
  | .ok r => (r, none)
  | .error e => (mid, some e)

/-- The sequence of database states committed by `resetAllImages`: the
`updateMany` commit always lands, the transaction commit only on success. -/
def resetAllCommits (now : Nat) (rows : List Tv) : List (List Tv) :=
  let mid := touchAll now rows
  match resetAllTx now mid with
  | .ok r => [mid, r]
  | .error _ => [mid]

/-- `screenRouter.getUpdates` (db variant): rows strictly newer than the
cutoff (epoch when absent), ordered by position. -/
def getUpdatesDb (rows : List Tv) (input : Option Nat) : List Tv :=
  let lastCheck := input.getD 0
  sortPos (rows.filter (fun t => lastCheck < t.updatedAt))

/-- The three seed rows created by `initializeTVs` (`createMany`; the
schema stamps `updatedAt` at creation). -/
def defaultSeeds (now : Nat) : List Tv :=
  [⟨"1", 1, some "/image1.png", now⟩,
   ⟨"2", 2, some "/image2.png", now⟩,
   ⟨"3", 3, some "/image3.png", now⟩]

/-- `initializeTVs`: seeds the three fixed rows when the table count is
zero, otherwise does nothing. -/
def initializeTVs (now : Nat) (rows : List Tv) : List Tv :=
  if rows.length = 0 then defaultSeeds now else rows

/-- `screenRouter.getAll` (db variant): runs `initializeTVs`, then returns
all rows ordered by position; both the new table state and the reply. -/
def getAllDb (now : Nat) (rows : List Tv) : List Tv × List Tv :=
  let rows2 := initializeTVs now rows
  (rows2, sortPos rows2)

/-- `screenRouter.updateOrder` (in-memory variant): for each update, finds
the screen by id and, when present, overwrites its position and stamps
`updatedAt`; unknown ids are silently skipped. The array is then sorted in
place and returned. -/
def updateOrderMem (now : Nat) (screens : List Tv)
    (updates : List (String × Int)) : List Tv :=
  sortPos (updates.foldl
    (fun acc u => setFirst acc u.1
      (fun t => { t with position := u.2, updatedAt := now }))
    screens)

/-- `screenRouter.getUpdates` (in-memory variant): a plain filter of the
screens array, no re-sort. -/
def getUpdatesMem (screens : List Tv) (input : Option Nat) : List Tv :=
  let lastCheck := input.getD 0
  screens.filter (fun t => lastCheck < t.updatedAt)

/-! ## Layout catalog (`layoutRouter`, backed by the `layout` table) -/

/-- A row of the `layout` table (timestamps omitted; `getAll`'s
newest-first ordering is modelled by prepending on insert). -/
structure Layout where
  id : String
  name : String
  tv1Url : Option String
  tv2Url : Option String
  tv3Url : Option String
  deriving DecidableEq, Repr

/-- Prisma `findUnique` on the layout primary key. -/
def findLayout (layouts : List Layout) (id : String) : Option Layout :=
  layouts.find? (fun l => l.id == id)

/-- Both tables of the persisted relational state. -/
structure ServerState where
  tvs : List Tv
  layouts : List Layout
  deriving DecidableEq, Repr

/-- `layoutRouter.save`: zod requires a non-empty name (the three URL
fields are plain nullable strings); a fresh `nanoid` primary key is
supplied by the caller (`create` would reject a colliding id); inserts the
row and returns it. The `tv` table is not touched. -/
def layoutSave (freshId : String) (st : ServerState) (name : String)
    (u1 u2 u3 : Option String) : Except ApiError (Layout × ServerState) :=
  if name = "" then .error .validation
  else if (findLayout st.layouts freshId).isSome then .error .conflict
  else
    let l : Layout := ⟨freshId, name, u1, u2, u3⟩
    .ok (l, { st with layouts := l :: st.layouts })

/-- The transaction inside `layoutRouter.restore`: the three fixed
`tv.update` calls writing the layout's slots. -/
def restoreTx (now : Nat) (l : Layout) (rows : List Tv) :
    Except ApiError (List Tv) :=
  (tvUpdate now rows "1" (fun t => { t with imageUrl := l.tv1Url })).bind
    fun r1 =>
      (tvUpdate now r1 "2" (fun t => { t with imageUrl := l.tv2Url })).bind
        fun r2 =>
          tvUpdate now r2 "3" (fun t => { t with imageUrl := l.tv3Url })

/-- `layoutRouter.restore`: NotFound when the layout id is absent,
otherwise one transaction applying the three slots to screens "1", "2",
"3"; the committed `tv` state on success (the reply is `sortPos` of it). -/
def layoutRestore (now : Nat) (rows : List Tv) (layouts : List Layout)
    (id : String) : Except ApiError (List Tv) :=
  match findLayout layouts id with
  | none => .error .notFound
  | some l => restoreTx now l rows

/-- The sequence of database states committed by `restore`. -/
def restoreCommits (now : Nat) (rows : List Tv) (layouts : List Layout)
    (id : String) : List (List Tv) :=
  match layoutRestore now rows layouts id with
  | .ok r => [r]
  | .error _ => []

/-! ## Trigger-reload flag (`setTriggerReload` / `getTriggerReload`)

The module-level `triggerReload` boolean and its `setTimeout` handle are
modelled as explicit state; the single pending timeout is represented by
its absolute fire time. Timer events carry the time they were scheduled
for; a fire event whose time does not match the pending deadline
corresponds to a timeout that `clearTimeout` already cancelled, and is a
no-op. -/

/-- The reload flag and the pending auto-reset timeout, if any. -/
structure ReloadState where
  triggerReload : Bool
  timerDeadline : Option Nat
  deriving DecidableEq, Repr

/-- The initial module state: flag down, no timer. -/
def reloadInit : ReloadState := ⟨false, none⟩

/-- The auto-reset delay of `setTriggerReload` (5000 ms). -/
def RELOAD_DELAY : Nat := 5000

/-- `screenRouter.setTriggerReload`: stores the flag; on `true` it clears
any pending timeout and schedules a fresh one for `now + RELOAD_DELAY`; on
`false` it clears any pending timeout. -/
def setTriggerReload (now : Nat) (trigger : Bool) (_s : ReloadState) :
    ReloadState :=
  if trigger then ⟨true, some (now + RELOAD_DELAY)⟩
  else ⟨false, none⟩

/-- The body of the scheduled timeout: reset the flag and drop the handle. -/
def fireTimeout (_s : ReloadState) : ReloadState :=
  ⟨false, none⟩

/-- Events acting on the reload state: a `setTriggerReload` call, or the
firing of the timeout scheduled for time `t`. -/
inductive ReloadEvent where
  | set (now : Nat) (trigger : Bool)
  | fire (t : Nat)
  deriving DecidableEq, Repr

/-- Process one event. A `fire t` whose `t` is not the pending deadline was
cancelled by `clearTimeout` and does nothing. -/
def stepReload (s : ReloadState) : ReloadEvent → ReloadState
  | .set now trigger => setTriggerReload now trigger s
  | .fire t => if s.timerDeadline = some t then fireTimeout s else s

/-- Process a list of events from the initial state. -/
def runReload (evs : List ReloadEvent) : ReloadState :=
  evs.foldl stepReload reloadInit

/-! ## Specification-side predicates -/

/-- The spec's imageUrl rule: null, a syntactically valid absolute URL, or
a string beginning with `/`. -/
def urlRule (v : Option String) : Prop :=
  match v with
  | none => True
  | some s => isValidURL s = true ∨ startsWithStr s "/" = true

instance (v : Option String) : Decidable (urlRule v) := by
  unfold urlRule
  cases v <;> infer_instance

/-- Atomicity of one batch call, in terms of the states it commits: a
successful call commits exactly its result, a failed call commits nothing
(so the store still holds the pre-call state). -/
def AtomicBatch (result : Except ApiError (List Tv))
    (commits : List (List Tv)) : Prop :=
  match result with
  | .ok r => commits = [r]
  | .error _ => commits = []

/-- Whether an `Except` result is a success. -/
def exceptOk {ε α : Type} : Except ε α → Bool
  | .ok _ => true
  | .error _ => false

/-- The bare update loop of the in-memory `updateOrder`, before the final
in-place sort (`updateOrderMem` is `sortPos` of this). -/
def orderFold (now : Nat) (updates : List (String × Int))
    (screens : List Tv) : List Tv :=
  updates.foldl
    (fun acc u => setFirst acc u.1
      (fun t => { t with position := u.2, updatedAt := now }))
    screens

/-! ## Lemmas about `setFirst`, `findTv` and `tvUpdate` -/

theorem setFirst_length (rows : List Tv) (id : String) (f : Tv → Tv) :
    (setFirst rows id f).length = rows.length := by
  induction rows with
  | nil => rfl
  | cons t rest ih =>
    simp only [setFirst]
    split <;> simp [ih]

theorem map_id_setFirst (rows : List Tv) (id : String) (f : Tv → Tv)
    (hf : ∀ t, (f t).id = t.id) :
    (setFirst rows id f).map Tv.id = rows.map Tv.id := by
  induction rows with
  | nil => rfl
  | cons t rest ih =>
    simp only [setFirst]
    split <;> simp [ih, hf]

theorem mem_setFirst (rows : List Tv) (id : String) (f : Tv → Tv)
    (u : Tv) (hu : u ∈ setFirst rows id f) :
    u ∈ rows ∨ ∃ t ∈ rows, u = f t := by
  induction rows with
  | nil => simp [setFirst] at hu
  | cons t rest ih =>
    simp only [setFirst] at hu
    split at hu
    · rcases List.mem_cons.mp hu with h | h
      · exact Or.inr ⟨t, List.mem_cons_self .., h⟩
      · exact Or.inl (List.mem_cons_of_mem _ h)
    · rcases List.mem_cons.mp hu with h | h
      · exact Or.inl (h ▸ List.mem_cons_self ..)
      · rcases ih h with h2 | ⟨t2, ht2, he⟩
        · exact Or.inl (List.mem_cons_of_mem _ h2)
        · exact Or.inr ⟨t2, List.mem_cons_of_mem _ ht2, he⟩

theorem findTv_cons_pos (t : Tv) (rest : List Tv) (id : String)
    (h : t.id = id) : findTv (t :: rest) id = some t :=
  List.find?_cons_of_pos rest (by simp [h])

theorem findTv_cons_neg (t : Tv) (rest : List Tv) (id : String)
    (h : t.id ≠ id) : findTv (t :: rest) id = findTv rest id :=
  List.find?_cons_of_neg rest (by simp [h])

theorem findTv_setFirst_self (rows : List Tv) (id : String) (f : Tv → Tv)
    (hf : ∀ t, (f t).id = t.id) :
    findTv (setFirst rows id f) id = (findTv rows id).map f := by
  induction rows with
  | nil => rfl
  | cons t rest ih =>
    by_cases h : t.id = id
    · rw [setFirst, if_pos (by simp [h]), findTv_cons_pos _ _ _ (by rw [hf, h]),
        findTv_cons_pos _ _ _ h, Option.map_some']
    · rw [setFirst, if_neg (by simp [h]), findTv_cons_neg _ _ _ h,
        findTv_cons_neg _ _ _ h, ih]

theorem findTv_setFirst_ne (rows : List Tv) (id id2 : String) (f : Tv → Tv)
    (hf : ∀ t, (f t).id = t.id) (hne : id2 ≠ id) :
    findTv (setFirst rows id f) id2 = findTv rows id2 := by
  induction rows with
  | nil => rfl
  | cons t rest ih =>
    by_cases h : t.id = id
    · have hne2 : t.id ≠ id2 := by rw [h]; exact fun e => hne e.symm
      rw [setFirst, if_pos (by simp [h]),
        findTv_cons_neg _ _ _ (by rw [hf]; exact hne2),
        findTv_cons_neg _ _ _ hne2]
    · rw [setFirst, if_neg (by simp [h])]
      by_cases h2 : t.id = id2
      · rw [findTv_cons_pos _ _ _ h2, findTv_cons_pos _ _ _ h2]
      · rw [findTv_cons_neg _ _ _ h2, findTv_cons_neg _ _ _ h2, ih]

theorem findTv_mem (rows : List Tv) (id : String) (t : Tv)
    (h : findTv rows id = some t) : t ∈ rows ∧ t.id = id := by
  induction rows with
  | nil => simp [findTv, List.find?] at h
  | cons u rest ih =>
    by_cases hu : u.id = id
    · rw [findTv_cons_pos _ _ _ hu] at h
      cases h
      exact ⟨List.mem_cons_self .., hu⟩
    · rw [findTv_cons_neg _ _ _ hu] at h
      obtain ⟨hm, hi⟩ := ih h
      exact ⟨List.mem_cons_of_mem _ hm, hi⟩

theorem findTv_isSome_of_mem (rows : List Tv) (t : Tv) (hm : t ∈ rows) :
    (findTv rows t.id).isSome := by
  induction rows with
  | nil => simp at hm
  | cons u rest ih =>
    rcases List.mem_cons.mp hm with h | h
    · subst h; rw [findTv_cons_pos _ _ _ rfl]; rfl
    · by_cases hu : u.id = t.id
      · rw [findTv_cons_pos _ _ _ hu]; rfl
      · rw [findTv_cons_neg _ _ _ hu]; exact ih h

theorem findTv_eq_of_nodup (rows : List Tv) (id : String) (t : Tv)
    (hnd : (rows.map Tv.id).Nodup) (hm : t ∈ rows) (hid : t.id = id) :
    findTv rows id = some t := by
  induction rows with
  | nil => simp at hm
  | cons u rest ih =>
    simp only [List.map_cons, List.nodup_cons] at hnd
    rcases List.mem_cons.mp hm with h | h
    · subst h; exact findTv_cons_pos _ _ _ hid
    · have hune : u.id ≠ id := by
        intro he
        exact hnd.1 (he ▸ hid ▸ List.mem_map_of_mem Tv.id h)
      rw [findTv_cons_neg _ _ _ hune]
      exact ih hnd.2 h

theorem tvUpdate_ok_of_isSome (now : Nat) (rows : List Tv) (id : String)
    (f : Tv → Tv) (h : (findTv rows id).isSome) :
    tvUpdate now rows id f =
      .ok (setFirst rows id (fun t => { f t with updatedAt := now })) := by
  simp [tvUpdate, h]

theorem tvUpdate_error_of_none (now : Nat) (rows : List Tv) (id : String)
    (f : Tv → Tv) (h : findTv rows id = none) :
    tvUpdate now rows id f = .error .notFound := by
  simp [tvUpdate, h]

theorem tvUpdate_ok_find_self (now : Nat) (rows rows2 : List Tv)
    (id : String) (f : Tv → Tv) (h : tvUpdate now rows id f = .ok rows2)
    (hf : ∀ t, (f t).id = t.id) :
    findTv rows2 id =
      (findTv rows id).map (fun t => { f t with updatedAt := now }) := by
  unfold tvUpdate at h
  split at h
  · cases h
    exact findTv_setFirst_self rows id _ (fun t => hf t)
  · cases h

theorem tvUpdate_ok_find_ne (now : Nat) (rows rows2 : List Tv)
    (id id2 : String) (f : Tv → Tv) (h : tvUpdate now rows id f = .ok rows2)
    (hf : ∀ t, (f t).id = t.id) (hne : id2 ≠ id) :
    findTv rows2 id2 = findTv rows id2 := by
  unfold tvUpdate at h
  split at h
  · cases h
    exact findTv_setFirst_ne rows id id2 _ (fun t => hf t) hne
  · cases h

theorem tvUpdate_ok_isSome (now : Nat) (rows rows2 : List Tv)
    (id id2 : String) (f : Tv → Tv) (h : tvUpdate now rows id f = .ok rows2)
    (hf : ∀ t, (f t).id = t.id) :
    (findTv rows2 id2).isSome = (findTv rows id2).isSome := by
  by_cases he : id2 = id
  · subst he
    rw [tvUpdate_ok_find_self now rows rows2 id2 f h hf]
    cases findTv rows id2 <;> rfl
  · rw [tvUpdate_ok_find_ne now rows rows2 id id2 f h hf he]

theorem tvUpdate_ok_map_id (now : Nat) (rows rows2 : List Tv) (id : String)
    (f : Tv → Tv) (h : tvUpdate now rows id f = .ok rows2)
    (hf : ∀ t, (f t).id = t.id) :
    rows2.map Tv.id = rows.map Tv.id := by
  unfold tvUpdate at h
  split at h
  · cases h
    exact map_id_setFirst rows id _ (fun t => hf t)
  · cases h

/-! ## Lemmas about `sortPos` -/

theorem insertPos_perm (t : Tv) (l : List Tv) :
    (insertPos t l).Perm (t :: l) := by
  induction l with
  | nil => simp [insertPos]
  | cons u rest ih =>
    simp only [insertPos]
    split
    · exact List.Perm.refl _
    · exact (List.Perm.cons u ih).trans (List.Perm.swap t u rest)

theorem sortPos_perm (l : List Tv) : (sortPos l).Perm l := by
  induction l with
  | nil => simp [sortPos]
  | cons t rest ih =>
    exact (insertPos_perm t (sortPos rest)).trans (List.Perm.cons t ih)

theorem mem_sortPos (l : List Tv) (u : Tv) : u ∈ sortPos l ↔ u ∈ l :=
  (sortPos_perm l).mem_iff

theorem sorted_insertPos (t : Tv) (l : List Tv)
    (h : l.Pairwise (fun a b => a.position ≤ b.position)) :
    (insertPos t l).Pairwise (fun a b => a.position ≤ b.position) := by
  induction l with
  | nil => simp [insertPos]
  | cons u rest ih =>
    simp only [insertPos]
    rcases List.pairwise_cons.mp h with ⟨hu, hrest⟩
    split
    · rename_i hle
      refine List.pairwise_cons.mpr ⟨?_, h⟩
      intro v hv
      rcases List.mem_cons.mp hv with he | hm
      · subst he; exact hle
      · exact le_trans hle (hu v hm)
    · rename_i hgt
      refine List.pairwise_cons.mpr ⟨?_, ih hrest⟩
      intro v hv
      rcases List.mem_cons.mp ((insertPos_perm t rest).mem_iff.mp hv) with he | hm
      · subst he; exact le_of_not_le hgt
      · exact hu v hm

theorem sorted_sortPos (l : List Tv) :
    (sortPos l).Pairwise (fun a b => a.position ≤ b.position) := by
  induction l with
  | nil => simp [sortPos]
  | cons t rest ih => exact sorted_insertPos t (sortPos rest) ih

theorem findTv_sortPos (l : List Tv) (id : String)
    (hnd : (l.map Tv.id).Nodup) :
    findTv (sortPos l) id = findTv l id := by
  have hnd2 : ((sortPos l).map Tv.id).Nodup :=
    (((sortPos_perm l).map Tv.id).nodup_iff).mpr hnd
  cases hfl : findTv l id with
  | none =>
    cases hfs : findTv (sortPos l) id with
    | none => rfl
    | some t =>
      obtain ⟨hm, hid⟩ := findTv_mem _ _ _ hfs
      have := findTv_eq_of_nodup l id t hnd ((mem_sortPos l t).mp hm) hid
      rw [this] at hfl
      cases hfl
  | some t =>
    obtain ⟨hm, hid⟩ := findTv_mem _ _ _ hfl
    exact findTv_eq_of_nodup (sortPos l) id t hnd2
      ((mem_sortPos l t).mpr hm) hid

/-! ## Lemmas about the reorder loops -/

theorem findTv_setFirst_isSome (rows : List Tv) (id id2 : String)
    (f : Tv → Tv) (hf : ∀ t, (f t).id = t.id) :
    (findTv (setFirst rows id f) id2).isSome = (findTv rows id2).isSome := by
  by_cases h : id2 = id
  · subst h
    rw [findTv_setFirst_self rows id2 f hf]
    cases findTv rows id2 <;> rfl
  · rw [findTv_setFirst_ne rows id id2 f hf h]

theorem orderFold_cons (now : Nat) (u : String × Int)
    (rest : List (String × Int)) (screens : List Tv) :
    orderFold now (u :: rest) screens =
      orderFold now rest
        (setFirst screens u.1 (fun t => { t with position := u.2, updatedAt := now })) :=
  rfl

theorem orderFold_map_id (now : Nat) (updates : List (String × Int))
    (screens : List Tv) :
    (orderFold now updates screens).map Tv.id = screens.map Tv.id := by
  induction updates generalizing screens with
  | nil => rfl
  | cons u rest ih =>
    rw [orderFold_cons]
    exact (ih _).trans (map_id_setFirst screens u.1 _ (fun t => rfl))

theorem orderFold_find_untouched (now : Nat) (updates : List (String × Int))
    (screens : List Tv) (id : String) (h : ∀ u ∈ updates, u.1 ≠ id) :
    findTv (orderFold now updates screens) id = findTv screens id := by
  induction updates generalizing screens with
  | nil => rfl
  | cons u rest ih =>
    rw [orderFold_cons]
    rw [ih _ (fun v hv => h v (List.mem_cons_of_mem _ hv))]
    exact findTv_setFirst_ne screens u.1 id _ (fun t => rfl)
      (fun he => h u (List.mem_cons_self ..) he.symm)

theorem orderFold_find_applied (now : Nat) (updates : List (String × Int))
    (screens : List Tv) (hndu : (updates.map Prod.fst).Nodup)
    (u : String × Int) (hu : u ∈ updates) :
    findTv (orderFold now updates screens) u.1 =
      (findTv screens u.1).map
        (fun t => { t with position := u.2, updatedAt := now }) := by
  induction updates generalizing screens with
  | nil => cases hu
  | cons v rest ih =>
    simp only [List.map_cons, List.nodup_cons] at hndu
    rcases List.mem_cons.mp hu with he | hm
    · subst he
      rw [orderFold_cons]
      rw [orderFold_find_untouched now rest _ u.1
        (fun w hw he2 => hndu.1 (he2 ▸ List.mem_map_of_mem Prod.fst hw))]
      exact findTv_setFirst_self screens u.1 _ (fun t => rfl)
    · have hne : u.1 ≠ v.1 :=
        fun he2 => hndu.1 (he2 ▸ List.mem_map_of_mem Prod.fst hm)
      rw [orderFold_cons, ih _ hndu.2 hm,
        findTv_setFirst_ne screens v.1 u.1
          (fun t => { t with position := v.2, updatedAt := now })
          (fun t => rfl) hne]

theorem applyOrderTx_ok_iff (now : Nat) (updates : List (String × Int))
    (rows : List Tv) :
    exceptOk (applyOrderTx now updates rows) = true ↔
      ∀ u ∈ updates, (findTv rows u.1).isSome := by
  induction updates generalizing rows with
  | nil => simp [applyOrderTx, exceptOk]
  | cons u rest ih =>
    cases h2 : tvUpdate now rows u.1 (fun t => { t with position := u.2 }) with
    | ok rows2 =>
      show exceptOk ((tvUpdate now rows u.1
          (fun t => { t with position := u.2 })).bind (applyOrderTx now rest)) = true ↔ _
      rw [h2]
      show exceptOk (applyOrderTx now rest rows2) = true ↔ _
      rw [ih]
      have htrans : ∀ id2, (findTv rows2 id2).isSome = (findTv rows id2).isSome :=
        fun id2 => tvUpdate_ok_isSome now rows rows2 u.1 id2 _ h2 (fun t => rfl)
      have hsome : (findTv rows u.1).isSome := by
        by_contra hno
        rw [tvUpdate_error_of_none now rows u.1 _
          (Option.not_isSome_iff_eq_none.mp hno)] at h2
        cases h2
      constructor
      · intro hall v hv
        rcases List.mem_cons.mp hv with he | hm
        · subst he; exact hsome
        · rw [← htrans]; exact hall v hm
      · intro hall v hv
        rw [htrans]; exact hall v (List.mem_cons_of_mem _ hv)
    | error e =>
      show exceptOk ((tvUpdate now rows u.1
          (fun t => { t with position := u.2 })).bind (applyOrderTx now rest)) = true ↔ _
      rw [h2]
      have hnone : findTv rows u.1 = none := by
        by_cases hs : (findTv rows u.1).isSome
        · rw [tvUpdate_ok_of_isSome now rows u.1 _ hs] at h2; cases h2
        · exact Option.not_isSome_iff_eq_none.mp hs
      constructor
      · intro hx; cases hx
      · intro hall
        have := hall u (List.mem_cons_self ..)
        rw [hnone] at this
        cases this

/-! ## Claim theorems -/

/-- C1: the spec's two cited traversal attempts are rejected before any
filesystem access — `delete("../../etc/passwd")` fails the resolved-path
check and `serve` rejects `..%2f..%2fsecret` (both URL-decoded and raw)
at the textual `..`/`/`/`\` check — but the universal guarantee is broken:
`delete`'s containment check is a bare string-`startsWith` without a
separator, so `delete("../images-evil/x.png")` passes validation and
removes `/data/images-evil/x.png`, a file strictly outside the image
volume root. -/
theorem c1_path_check_bug :
    imagesDelete ["/etc/passwd", "/data/images/x.png"] "../../etc/passwd" =
      .error .invalidPath ∧
    serveGET ["/data/images/x.png"] "../../secret" = .error .badRequest ∧
    serveGET ["/data/images/x.png"] "..%2f..%2fsecret" = .error .badRequest ∧
    imagesDelete ["/data/images-evil/x.png", "/data/images/x.png"]
        "../images-evil/x.png" = .ok ["/data/images/x.png"] ∧
    insideImageRoot (resolveAbs (imageRoot ++ "/" ++ "../images-evil/x.png")) =
      false :=
  ⟨rfl, rfl, rfl, rfl, by decide⟩

/-- C10: the empty string passes the db-variant `updateImage` validation
through its falsy-value short circuit and is stored verbatim as the
screen's imageUrl, although it is neither null, nor accepted by the URL
parser, nor a string beginning with `/`. -/
theorem c10_empty_string_accepted :
    imageUrlCheck (some "") = true ∧
    isValidURL "" = false ∧
    startsWithStr "" "/" = false ∧
    some "" ≠ (none : Option String) ∧
    updateImage 5 (defaultSeeds 0) "1" (some "") =
      .ok [⟨"1", 1, some "", 5⟩, ⟨"2", 2, some "/image2.png", 0⟩,
           ⟨"3", 3, some "/image3.png", 0⟩] ∧
    (findTv [⟨"1", 1, some "", 5⟩, ⟨"2", 2, some "/image2.png", 0⟩,
             ⟨"3", 3, some "/image3.png", 0⟩] "1").map Tv.imageUrl =
      some (some "") :=
  ⟨rfl, rfl, rfl, by decide, rfl, rfl⟩

/-- C2 counterexample: `setImage(id, "")` succeeds on an existing screen
although the empty string is neither null, nor a syntactically valid
absolute URL, nor a string beginning with `/` — refuting the claimed
"exactly when". -/
theorem c2_counterexample :
    exceptOk (updateImage 5 (defaultSeeds 0) "1" (some "")) = true ∧
    some "" ≠ (none : Option String) ∧
    ¬ urlRule (some "") :=
  ⟨rfl, by decide, by decide⟩

/-- C3 counterexample: a `resetAll` run on a reachable seeded state commits
two distinct states; the first (the `updateMany` updatedAt bump) is neither
the pre-call state nor the final one, so the member updates do not become
visible together. Moreover, on a state where the closing transaction fails,
the bump commit persists: the call reports an error yet the screen state
differs from before the call. -/
theorem c3_counterexample :
    resetAllCommits 200
        [⟨"1", 1, some "/custom.png", 100⟩, ⟨"2", 2, some "/image2.png", 100⟩,
         ⟨"3", 3, some "/image3.png", 100⟩] =
      [[⟨"1", 1, some "/custom.png", 200⟩, ⟨"2", 2, some "/image2.png", 200⟩,
        ⟨"3", 3, some "/image3.png", 200⟩],
       [⟨"1", 1, some "/image1.png", 200⟩, ⟨"2", 2, some "/image2.png", 200⟩,
        ⟨"3", 3, some "/image3.png", 200⟩]] ∧
    ([⟨"1", 1, some "/custom.png", 200⟩, ⟨"2", 2, some "/image2.png", 200⟩,
      ⟨"3", 3, some "/image3.png", 200⟩] : List Tv) ≠
      [⟨"1", 1, some "/custom.png", 100⟩, ⟨"2", 2, some "/image2.png", 100⟩,
       ⟨"3", 3, some "/image3.png", 100⟩] ∧
    ([⟨"1", 1, some "/custom.png", 200⟩, ⟨"2", 2, some "/image2.png", 200⟩,
      ⟨"3", 3, some "/image3.png", 200⟩] : List Tv) ≠
      [⟨"1", 1, some "/image1.png", 200⟩, ⟨"2", 2, some "/image2.png", 200⟩,
       ⟨"3", 3, some "/image3.png", 200⟩] ∧
    resetAllImages 200 [⟨"1", 1, some "/custom.png", 100⟩] =
      ([⟨"1", 1, some "/custom.png", 200⟩], some .notFound) ∧
    ([⟨"1", 1, some "/custom.png", 200⟩] : List Tv) ≠
      [⟨"1", 1, some "/custom.png", 100⟩] :=
  ⟨rfl, by decide, by decide, rfl, by decide⟩

/-- C5 counterexample: against the db-backed registry, `reorder` with an id
absent from the registry raises NotFound rather than ignoring the pair —
the call never succeeds, refuting the claimed ignore-without-error
behaviour. -/
theorem c5_counterexample :
    updateOrderDb 5 (defaultSeeds 0) [("4", 1)] = .error .notFound ∧
    ∀ r, updateOrderDb 5 (defaultSeeds 0) [("4", 1)] ≠ .ok r := by
  refine ⟨rfl, fun r h => ?_⟩
  rw [show updateOrderDb 5 (defaultSeeds 0) [("4", 1)] = .error .notFound
    from rfl] at h
  cases h

/-- C6 counterexample: layout `save` accepts `"not a url"` — a string that
the Screen.imageUrl rule rejects — and stores it verbatim, refuting the
claim that each URL field is validated by that rule. -/
theorem c6_counterexample :
    ¬ urlRule (some "not a url") ∧
    layoutSave "L1" ⟨defaultSeeds 0, []⟩ "Evening" (some "not a url") none none =
      .ok (⟨"L1", "Evening", some "not a url", none, none⟩,
           ⟨defaultSeeds 0, [⟨"L1", "Evening", some "not a url", none, none⟩]⟩) :=
  ⟨by decide, rfl⟩

/-- C2 amended: for a screen id present in the registry, `setImage(id, s)`
succeeds exactly when `s` is null, a syntactically valid absolute URL, a
string beginning with `/`, or the empty string (which the falsy check lets
through); any other string fails with a validation error. -/
theorem c2_setimage_validation (now : Nat) (rows : List Tv) (id : String)
    (s : Option String) (h : (findTv rows id).isSome) :
    (exceptOk (updateImage now rows id s) = true ↔ (urlRule s ∨ s = some "")) ∧
    (¬ (urlRule s ∨ s = some "") →
      updateImage now rows id s = .error .validation) := by
  have hcheck : imageUrlCheck s = true ↔ (urlRule s ∨ s = some "") := by
    cases s with
    | none => simp [imageUrlCheck, urlRule]
    | some v =>
      by_cases hv : v = ""
      · subst hv; simp [imageUrlCheck, urlRule]
      · by_cases hurl : isValidURL v = true
        · simp [imageUrlCheck, urlRule, hv, hurl]
        · simp [imageUrlCheck, urlRule, hv, hurl]
  constructor
  · by_cases hc : imageUrlCheck s = true
    · rw [updateImage, if_neg (by simp [hc]),
        tvUpdate_ok_of_isSome now rows id _ h]
      exact ⟨fun _ => hcheck.mp hc, fun _ => rfl⟩
    · rw [updateImage, if_pos (by simp [hc])]
      constructor
      · intro hx; cases hx
      · intro hr; exact absurd (hcheck.mpr hr) hc
  · intro hr
    have hc : ¬ imageUrlCheck s = true := fun hc => hr (hcheck.mp hc)
    rw [updateImage, if_pos (by simp [hc])]

/-- C2 witness: `setImage("1", "not a url")` on the seeded registry fails
with a validation error, by the amended theorem. -/
theorem c2_setimage_validation_witness :
    updateImage 5 (defaultSeeds 0) "1" (some "not a url") = .error .validation :=
  (c2_setimage_validation 5 (defaultSeeds 0) "1" (some "not a url")
    (by decide)).2 (by decide)

/-- C3 amended: `reorder` and `restore` each run as a single transaction —
on success they commit exactly their result and on failure they commit
nothing, with `reorder` succeeding precisely when every member id exists —
but `resetAll` is not one atomic batch: its opening `updateMany` commit (the
updatedAt bump of every row) always lands first, and when the closing
transaction fails the call reports an error while the bump remains the
persisted state. -/
theorem c3_batch_atomicity (now : Nat) (rows : List Tv)
    (updates : List (String × Int)) (layouts : List Layout) (lid : String) :
    AtomicBatch (updateOrderDb now rows updates)
      (updateOrderCommits now rows updates) ∧
    AtomicBatch (layoutRestore now rows layouts lid)
      (restoreCommits now rows layouts lid) ∧
    (exceptOk (updateOrderDb now rows updates) = true ↔
      ∀ u ∈ updates, (findTv rows u.1).isSome) ∧
    (resetAllCommits now rows).head? = some (touchAll now rows) ∧
    ((resetAllImages now rows).2.isSome →
      (resetAllImages now rows).1 = touchAll now rows) := by
  refine ⟨?_, ?_, applyOrderTx_ok_iff now updates rows, ?_, ?_⟩
  · cases h : updateOrderDb now rows updates <;>
      simp [AtomicBatch, updateOrderCommits, h]
  · cases h : layoutRestore now rows layouts lid <;>
      simp [AtomicBatch, restoreCommits, h]
  · cases h : resetAllTx now (touchAll now rows) <;>
      simp [resetAllCommits, h]
  · intro hsome
    cases h : resetAllTx now (touchAll now rows) with
    | ok r => simp [resetAllImages, h] at hsome
    | error e => simp [resetAllImages, h]

/-- C3 witness: on a registry holding only screen "1", `resetAll` fails (the
transaction cannot find screen "2") yet leaves the updatedAt bump as the
persisted state, by the amended theorem. -/
theorem c3_batch_atomicity_witness :
    (resetAllImages 5 [⟨"1", 1, none, 0⟩]).1 = touchAll 5 [⟨"1", 1, none, 0⟩] :=
  (c3_batch_atomicity 5 [⟨"1", 1, none, 0⟩] [] [] "L").2.2.2.2 (by decide)

/-- C6 amended: layout `save` validates only that the name is non-empty
(rejecting the empty name with a validation error); the three URL fields
are stored verbatim with no validation; the screen table is untouched. -/
theorem c6_save_validation (freshId : String) (st : ServerState)
    (name : String) (u1 u2 u3 : Option String)
    (hfresh : findLayout st.layouts freshId = none) :
    (name = "" → layoutSave freshId st name u1 u2 u3 = .error .validation) ∧
    (name ≠ "" → layoutSave freshId st name u1 u2 u3 =
      .ok (⟨freshId, name, u1, u2, u3⟩,
           ⟨st.tvs, ⟨freshId, name, u1, u2, u3⟩ :: st.layouts⟩)) := by
  constructor
  · intro he; rw [layoutSave, if_pos he]
  · intro hne
    rw [layoutSave, if_neg hne, if_neg (by simp [hfresh])]

/-- C6 witness: saving with an empty name fails with a validation error, by
the amended theorem. -/
theorem c6_save_validation_witness :
    layoutSave "L1" ⟨defaultSeeds 0, []⟩ "" (some "/a.png") none none =
      .error .validation :=
  (c6_save_validation "L1" ⟨defaultSeeds 0, []⟩ "" (some "/a.png") none none
    rfl).1 rfl

/-- C5 amended: the in-memory `reorder` applies each pair whose id exists
(overwriting its position and stamping updatedAt), silently ignores pairs
whose id is absent, touches no other row, never creates rows, and returns
the list re-sorted by position; the db-backed `reorder` instead succeeds
precisely when every member id exists — an unknown id fails the whole
transactional batch with no update applied. Stated for pairwise-distinct
registry ids (the primary key) and pairwise-distinct update ids. -/
theorem c5_reorder_semantics (now : Nat) (screens rows : List Tv)
    (updates : List (String × Int))
    (hnds : (screens.map Tv.id).Nodup)
    (hndu : (updates.map Prod.fst).Nodup) :
    (∀ u ∈ updates, ∀ t, findTv screens u.1 = some t →
      findTv (updateOrderMem now screens updates) u.1 =
        some { t with position := u.2, updatedAt := now }) ∧
    (∀ u ∈ updates, findTv screens u.1 = none →
      findTv (updateOrderMem now screens updates) u.1 = none) ∧
    (∀ id, (∀ u ∈ updates, u.1 ≠ id) →
      findTv (updateOrderMem now screens updates) id = findTv screens id) ∧
    (updateOrderMem now screens updates).length = screens.length ∧
    (updateOrderMem now screens updates).Pairwise
      (fun a b => a.position ≤ b.position) ∧
    (exceptOk (updateOrderDb now rows updates) = true ↔
      ∀ u ∈ updates, (findTv rows u.1).isSome) := by
  have hmapid : (orderFold now updates screens).map Tv.id = screens.map Tv.id :=
    orderFold_map_id now updates screens
  have hnd2 : ((orderFold now updates screens).map Tv.id).Nodup :=
    hmapid ▸ hnds
  have hsorteq : ∀ id, findTv (updateOrderMem now screens updates) id =
      findTv (orderFold now updates screens) id :=
    fun id => findTv_sortPos _ id hnd2
  refine ⟨?_, ?_, ?_, ?_, ?_, applyOrderTx_ok_iff now updates rows⟩
  · intro u hu t ht
    rw [hsorteq, orderFold_find_applied now updates screens hndu u hu, ht]
    rfl
  · intro u hu ht
    rw [hsorteq, orderFold_find_applied now updates screens hndu u hu, ht]
    rfl
  · intro id hid
    rw [hsorteq, orderFold_find_untouched now updates screens id hid]
  · have h1 : (updateOrderMem now screens updates).length =
        (orderFold now updates screens).length :=
      (sortPos_perm _).length_eq
    have h2 : (orderFold now updates screens).length = screens.length := by
      have := congrArg List.length hmapid
      simpa using this
    exact h1.trans h2
  · exact sorted_sortPos _

/-- C5 witness: on the seeded in-memory registry, reordering screen "1" to
position 9 yields a row with that position and the stamped updatedAt, by
the amended theorem. -/
theorem c5_reorder_semantics_witness :
    findTv (updateOrderMem 5 (defaultSeeds 0) [("1", 9)]) "1" =
      some ⟨"1", 9, some "/image1.png", 5⟩ :=
  (c5_reorder_semantics 5 (defaultSeeds 0) (defaultSeeds 0) [("1", 9)]
      (by decide) (by decide)).1 ("1", 9) (by decide)
    ⟨"1", 1, some "/image1.png", 0⟩ rfl

/-- C4: saving a layout with a non-empty name and restoring it by the
returned id writes the three saved slots onto screens "1", "2" and "3"
respectively, for any valid nullable URL triple, provided the three screens
exist and the generated layout id is fresh. -/
theorem c4_layout_roundtrip (now : Nat) (st : ServerState)
    (freshId name : String) (u1 u2 u3 : Option String)
    (hname : name ≠ "")
    (hfresh : findLayout st.layouts freshId = none)
    (h1 : (findTv st.tvs "1").isSome)
    (h2 : (findTv st.tvs "2").isSome)
    (h3 : (findTv st.tvs "3").isSome)
    (hu1 : urlRule u1) (hu2 : urlRule u2) (hu3 : urlRule u3) :
    ∃ l st2 rows2,
      layoutSave freshId st name u1 u2 u3 = .ok (l, st2) ∧
      layoutRestore now st2.tvs st2.layouts l.id = .ok rows2 ∧
      (findTv rows2 "1").map Tv.imageUrl = some u1 ∧
      (findTv rows2 "2").map Tv.imageUrl = some u2 ∧
      (findTv rows2 "3").map Tv.imageUrl = some u3 := by
  have hsave : layoutSave freshId st name u1 u2 u3 =
      .ok (⟨freshId, name, u1, u2, u3⟩,
           ⟨st.tvs, ⟨freshId, name, u1, u2, u3⟩ :: st.layouts⟩) := by
    rw [layoutSave, if_neg hname, if_neg (by simp [hfresh])]
  set l : Layout := ⟨freshId, name, u1, u2, u3⟩ with hl
  have e1 := tvUpdate_ok_of_isSome now st.tvs "1"
    (fun t => { t with imageUrl := l.tv1Url }) h1
  set r1 := setFirst st.tvs "1"
    (fun t => { { t with imageUrl := l.tv1Url } with updatedAt := now }) with hr1
  have h2b : (findTv r1 "2").isSome := by
    rw [tvUpdate_ok_isSome now st.tvs r1 "1" "2" _ e1 (fun t => rfl)]
    exact h2
  have e2 := tvUpdate_ok_of_isSome now r1 "2"
    (fun t => { t with imageUrl := l.tv2Url }) h2b
  set r2 := setFirst r1 "2"
    (fun t => { { t with imageUrl := l.tv2Url } with updatedAt := now }) with hr2
  have h3b : (findTv r2 "3").isSome := by
    rw [tvUpdate_ok_isSome now r1 r2 "2" "3" _ e2 (fun t => rfl),
      tvUpdate_ok_isSome now st.tvs r1 "1" "3" _ e1 (fun t => rfl)]
    exact h3
  have e3 := tvUpdate_ok_of_isSome now r2 "3"
    (fun t => { t with imageUrl := l.tv3Url }) h3b
  set r3 := setFirst r2 "3"
    (fun t => { { t with imageUrl := l.tv3Url } with updatedAt := now }) with hr3
  have hfind : findLayout (l :: st.layouts) l.id = some l :=
    List.find?_cons_of_pos _ (by simp)
  have htx : restoreTx now l st.tvs = .ok r3 := by
    unfold restoreTx
    rw [e1]
    show (tvUpdate now r1 "2" (fun t => { t with imageUrl := l.tv2Url })).bind _ = _
    rw [e2]
    show tvUpdate now r2 "3" (fun t => { t with imageUrl := l.tv3Url }) = _
    exact e3
  have hrestore : layoutRestore now st.tvs (l :: st.layouts) l.id = .ok r3 := by
    unfold layoutRestore
    rw [hfind]
    exact htx
  refine ⟨l, ⟨st.tvs, l :: st.layouts⟩, r3, hsave, hrestore, ?_, ?_, ?_⟩
  · obtain ⟨t1, ht1⟩ := Option.isSome_iff_exists.mp h1
    rw [show findTv r3 "1" = (findTv st.tvs "1").map
        (fun t => { { t with imageUrl := l.tv1Url } with updatedAt := now }) from by
      rw [tvUpdate_ok_find_ne now r2 r3 "3" "1" _ e3 (fun t => rfl) (by decide),
        tvUpdate_ok_find_ne now r1 r2 "2" "1" _ e2 (fun t => rfl) (by decide)]
      exact tvUpdate_ok_find_self now st.tvs r1 "1" _ e1 (fun t => rfl), ht1]
    rfl
  · obtain ⟨t2, ht2⟩ := Option.isSome_iff_exists.mp h2
    rw [show findTv r3 "2" = (findTv st.tvs "2").map
        (fun t => { { t with imageUrl := l.tv2Url } with updatedAt := now }) from by
      rw [tvUpdate_ok_find_ne now r2 r3 "3" "2" _ e3 (fun t => rfl) (by decide),
        tvUpdate_ok_find_self now r1 r2 "2" _ e2 (fun t => rfl),
        tvUpdate_ok_find_ne now st.tvs r1 "1" "2" _ e1 (fun t => rfl) (by decide)],
      ht2]
    rfl
  · obtain ⟨t3, ht3⟩ := Option.isSome_iff_exists.mp h3
    rw [show findTv r3 "3" = (findTv st.tvs "3").map
        (fun t => { { t with imageUrl := l.tv3Url } with updatedAt := now }) from by
      rw [tvUpdate_ok_find_self now r2 r3 "3" _ e3 (fun t => rfl),
        tvUpdate_ok_find_ne now r1 r2 "2" "3" _ e2 (fun t => rfl) (by decide),
        tvUpdate_ok_find_ne now st.tvs r1 "1" "3" _ e1 (fun t => rfl) (by decide)],
      ht3]
    rfl

/-- C4 witness: the spec's example — save("Evening", "/a.png", "/b.png",
null) then restore — yields screens "1" ↦ /a.png, "2" ↦ /b.png, "3" ↦ null,
by the round-trip theorem. -/
theorem c4_layout_roundtrip_witness :
    ∃ l st2 rows2,
      layoutSave "L1" ⟨defaultSeeds 0, []⟩ "Evening"
          (some "/a.png") (some "/b.png") none = .ok (l, st2) ∧
      layoutRestore 9 st2.tvs st2.layouts l.id = .ok rows2 ∧
      (findTv rows2 "1").map Tv.imageUrl = some (some "/a.png") ∧
      (findTv rows2 "2").map Tv.imageUrl = some (some "/b.png") ∧
      (findTv rows2 "3").map Tv.imageUrl = some none :=
  c4_layout_roundtrip 9 ⟨defaultSeeds 0, []⟩ "L1" "Evening"
    (some "/a.png") (some "/b.png") none (by decide) rfl
    (by decide) (by decide) (by decide) (by decide) (by decide) (by decide)

/-- C7: `changesSince(T)` returns exactly the rows whose updatedAt is
strictly greater than T, ordered by position; with the cutoff absent it
defaults to the epoch and (every stored updatedAt being positive) returns
all rows; the result is always a subset of `listAll()`; and an earlier
cutoff returns a superset of a later one. -/
theorem c7_changefeed (rows : List Tv) (nowSeed T T2 : Nat) (hT : T ≤ T2)
    (hpos : ∀ t ∈ rows, 0 < t.updatedAt) :
    (∀ t, t ∈ getUpdatesDb rows (some T) ↔ (t ∈ rows ∧ T < t.updatedAt)) ∧
    getUpdatesDb rows none = sortPos rows ∧
    (getUpdatesDb rows (some T)).Pairwise
      (fun a b => a.position ≤ b.position) ∧
    (∀ t ∈ getUpdatesDb rows (some T), t ∈ (getAllDb nowSeed rows).2) ∧
    (∀ t ∈ getUpdatesDb rows (some T2), t ∈ getUpdatesDb rows (some T)) := by
  have hmem : ∀ (S : Nat) t,
      t ∈ getUpdatesDb rows (some S) ↔ (t ∈ rows ∧ S < t.updatedAt) := by
    intro S t
    simp only [getUpdatesDb, Option.getD_some]
    rw [mem_sortPos]
    simp only [List.mem_filter, decide_eq_true_eq]
  refine ⟨hmem T, ?_, sorted_sortPos _, ?_, ?_⟩
  · simp only [getUpdatesDb, Option.getD_none]
    congr 1
    refine List.filter_eq_self.mpr (fun a ha => ?_)
    simpa using hpos a ha
  · intro t ht
    obtain ⟨hm, _⟩ := (hmem T t).mp ht
    have hne : rows ≠ [] := fun he => by simp [he] at hm
    show t ∈ sortPos (initializeTVs nowSeed rows)
    rw [initializeTVs, if_neg (fun h => hne (List.length_eq_zero.mp h))]
    exact (mem_sortPos rows t).mpr hm
  · intro t ht
    obtain ⟨hm, hlt⟩ := (hmem T2 t).mp ht
    exact (hmem T t).mpr ⟨hm, lt_of_le_of_lt hT hlt⟩

/-- C7 witness: on the seeded registry stamped at time 3, the row of screen
"1" is in `changesSince(2)` precisely because it is stored and 2 < 3, by
the change-feed theorem. -/
theorem c7_changefeed_witness :
    (⟨"1", 1, some "/image1.png", 3⟩ : Tv) ∈
        getUpdatesDb (defaultSeeds 3) (some 2) ↔
      ((⟨"1", 1, some "/image1.png", 3⟩ : Tv) ∈ defaultSeeds 3 ∧ 2 < 3) :=
  (c7_changefeed (defaultSeeds 3) 0 2 3 (by decide) (by decide)).1
    ⟨"1", 1, some "/image1.png", 3⟩

/-- C8: `listAll` on an empty registry seeds exactly the rows with ids
"1", "2", "3", positions 1..3 and the default image paths; the seeded ids
are pairwise distinct; any later call (the registry being non-empty) skips
seeding and leaves the table unchanged, so no duplicate rows are ever
created. -/
theorem c8_seeding (now now2 : Nat) (rows : List Tv) :
    initializeTVs now [] = defaultSeeds now ∧
    (defaultSeeds now).map Tv.id = ["1", "2", "3"] ∧
    (defaultSeeds now).map Tv.position = [1, 2, 3] ∧
    (defaultSeeds now).map Tv.imageUrl =
      [some "/image1.png", some "/image2.png", some "/image3.png"] ∧
    ((initializeTVs now []).map Tv.id).Nodup ∧
    (rows ≠ [] → initializeTVs now rows = rows) ∧
    initializeTVs now2 (initializeTVs now rows) = initializeTVs now rows ∧
    (getAllDb now2 (getAllDb now rows).1).1 = (getAllDb now rows).1 := by
  have hskip : ∀ (n : Nat) (r : List Tv), r ≠ [] → initializeTVs n r = r :=
    fun n r hr => by
      rw [initializeTVs, if_neg (fun h => hr (List.length_eq_zero.mp h))]
  have hne : initializeTVs now rows ≠ [] := by
    rw [initializeTVs]
    split
    · simp [defaultSeeds]
    · rename_i h
      exact fun he => h (by simp [he])
  refine ⟨by simp [initializeTVs], rfl, rfl, rfl, by simp [initializeTVs, defaultSeeds],
    hskip now rows, hskip now2 _ hne, ?_⟩
  show initializeTVs now2 (initializeTVs now rows) = initializeTVs now rows
  exact hskip now2 _ hne

/-- C8 witness: a later `listAll` on the already-seeded registry performs no
seeding and leaves the rows unchanged, by the seeding theorem. -/
theorem c8_seeding_witness :
    initializeTVs 7 (defaultSeeds 0) = defaultSeeds 0 :=
  (c8_seeding 7 0 (defaultSeeds 0)).2.2.2.2.2.1 (by decide)

/-- C9: the trigger-reload flag is a one-shot pulse — setting it true
schedules an auto-reset exactly RELOAD_DELAY later, replacing any pending
timer (last-set-wins); setting it false clears flag and timer; a due timer
firing resets the flag; after any event sequence the flag can only be up
with a pending deadline RELOAD_DELAY after the most recent set-true, and
that timer's firing brings the flag down, so the flag never outlives one
full delay after the most recent set. -/
theorem c9_reload (s : ReloadState) (t d : Nat) (evs : List ReloadEvent) :
    stepReload s (.set t true) = ⟨true, some (t + RELOAD_DELAY)⟩ ∧
    stepReload s (.set t false) = ⟨false, none⟩ ∧
    (s.timerDeadline = some d → stepReload s (.fire d) = ⟨false, none⟩) ∧
    ((runReload evs).triggerReload = true →
      ∃ pre t0 suf, evs = pre ++ ReloadEvent.set t0 true :: suf ∧
        (∀ e ∈ suf, ∃ t2, e = ReloadEvent.fire t2 ∧ t2 ≠ t0 + RELOAD_DELAY) ∧
        (runReload evs).timerDeadline = some (t0 + RELOAD_DELAY)) ∧
    ((runReload evs).timerDeadline = some d →
      runReload (evs ++ [ReloadEvent.fire d]) = ⟨false, none⟩) := by
  refine ⟨by simp [stepReload, setTriggerReload], by simp [stepReload, setTriggerReload],
    fun h => by simp [stepReload, h, fireTimeout], ?_, ?_⟩
  · induction evs using List.reverseRecOn with
    | nil => intro h; cases h
    | append_singleton l e ih =>
      have hrun : runReload (l ++ [e]) = stepReload (runReload l) e := by
        simp [runReload, List.foldl_append]
      intro hflag
      rw [hrun] at hflag ⊢
      cases e with
      | set t0 b =>
        cases b with
        | true =>
          refine ⟨l, t0, [], by simp, by simp, ?_⟩
          simp [stepReload, setTriggerReload]
        | false =>
          simp [stepReload, setTriggerReload] at hflag
      | fire t2 =>
        simp only [stepReload] at hflag ⊢
        by_cases hd : (runReload l).timerDeadline = some t2
        · rw [if_pos hd] at hflag
          simp [fireTimeout] at hflag
        · rw [if_neg hd] at hflag ⊢
          obtain ⟨pre, t0, suf, hdec, hsuf, hdl⟩ := ih hflag
          refine ⟨pre, t0, suf ++ [ReloadEvent.fire t2], ?_, ?_, hdl⟩
          · rw [hdec]; simp
          · intro e he
            rcases List.mem_append.mp he with hin | hin
            · exact hsuf e hin
            · simp only [List.mem_singleton] at hin
              subst hin
              exact ⟨t2, rfl, fun he2 => hd (by rw [hdl, he2])⟩
  · intro hdl
    have hrun : runReload (evs ++ [ReloadEvent.fire d]) =
        stepReload (runReload evs) (.fire d) := by
      simp [runReload, List.foldl_append]
    rw [hrun]
    simp [stepReload, hdl, fireTimeout]

/-- C9 witness: a set at time 10 leaves a deadline of 5010, and the due
firing of that timer brings the state back to flag-down with no timer, by
the reload theorem. -/
theorem c9_reload_witness :
    runReload ([ReloadEvent.set 10 true] ++ [ReloadEvent.fire 5010]) =
      ⟨false, none⟩ :=
  (c9_reload ⟨false, none⟩ 0 5010 [ReloadEvent.set 10 true]).2.2.2.2 (by decide)

end KitchenWeb
